import Mathlib

/-!
Verification of the PixieZKVM static-program arithmetization core:
the instruction model (`vm_specs.rs`) and the program-instructions
trace builder and constraint table (`stark_program_instructions.rs`).

Modelling conventions:
* The proving field is fixed to the Goldilocks field used by the tests
  (`GoldilocksField`), embedded as `ZMod goldilocksP` with `goldilocksP = 2^64 - 2^32 + 1`.
  `F::ZERO`, `F::ONE`, `F::from_canonical_u8` become `0`, `1`, and the
  canonical `Nat`-cast of the byte value.
* Rust `u8` values become `Fin 256`; `Instruction::get_opcode`'s `u8`
  result is in `0..=10`, so its value is modelled as `Nat`.
* `HashMap<u8, Instruction>` is modelled as an association list whose
  order is the map's native iteration order, which Rust leaves
  unspecified: a given map instance iterates in a fixed but arbitrary
  order, so each possible order is a legitimate model of some map value.
* `Vec<[F; 3]>` rows become `List (F × F × F)`; `Vec::resize` and
  `usize::next_power_of_two` are modelled directly below.
-/

namespace PixieZKVM

/-- The Goldilocks prime: order of `GoldilocksField`, the field the
repository instantiates the trace builder with in its test. -/
def goldilocksP : Nat := 2 ^ 64 - 2 ^ 32 + 1

/-- The proving field. -/
abbrev F : Type := ZMod goldilocksP

instance : Fact (1 < goldilocksP) := ⟨by norm_num [goldilocksP]⟩

/-- `Register` from `vm_specs.rs`: two registers, `R0` the default. -/
inductive Register where
  | R0
  | R1
deriving DecidableEq, Repr

instance : Inhabited Register := ⟨Register.R0⟩

/-- `MemoryLocation(pub u8)` from `vm_specs.rs`. -/
structure MemoryLocation where
  val : Fin 256
deriving DecidableEq, Repr

/-- `InstructionLocation(pub u8)` from `vm_specs.rs`. -/
structure InstructionLocation where
  val : Fin 256
deriving DecidableEq, Repr

/-- `Instruction` from `vm_specs.rs`: eleven variants, `Halt` the
`#[default]` variant. -/
inductive Instruction where
  | Add (a b : Register)
  | Sub (a b : Register)
  | Mul (a b : Register)
  | Div (a b : Register)
  | Shl (a b : Register)
  | Shr (a b : Register)
  | Jz (r : Register) (loc : InstructionLocation)
  | Jnz (r : Register) (loc : InstructionLocation)
  | Lb (r : Register) (loc : MemoryLocation)
  | Sb (r : Register) (loc : MemoryLocation)
  | Halt
deriving DecidableEq, Repr

instance : Inhabited Instruction := ⟨Instruction.Halt⟩

/-- `Instruction::get_opcode` from `vm_specs.rs` lines 53-67: the
match arm constant for each variant (a `u8`, modelled as `Nat`). -/
def Instruction.get_opcode : Instruction → Nat
  | .Add _ _ => 0
  | .Sub _ _ => 1
  | .Mul _ _ => 2
  | .Div _ _ => 3
  | .Shl _ _ => 4
  | .Shr _ _ => 5
  | .Jz _ _ => 6
  | .Jnz _ _ => 7
  | .Lb _ _ => 8
  | .Sb _ _ => 9
  | .Halt => 10

/-- `Instruction::one_hot_encode` from `vm_specs.rs` lines 70-74:
start from `[0; 11]` and set index `get_opcode` to `1`. -/
def Instruction.one_hot_encode (i : Instruction) : List Nat :=
  (List.replicate 11 0).set i.get_opcode 1

/-- `Instruction::one_hot_encode_and_apply` from `vm_specs.rs` lines
77-81: start from `[F::ZERO; 11]` and set index `get_opcode` to
`F::ONE`. -/
def Instruction.one_hot_encode_and_apply (i : Instruction) : List F :=
  (List.replicate 11 (0 : F)).set i.get_opcode 1

/-- `Program` from `vm_specs.rs` lines 84-94.  The two `HashMap`s are
modelled as association lists in native iteration order. -/
structure Program where
  entry_point : Fin 256
  code : List (Fin 256 × Instruction)
  memory_init : List (Fin 256 × Fin 256)
deriving DecidableEq, Repr

/-- `Program::default()`: zero entry point, empty maps. -/
def Program.default : Program := ⟨0, [], []⟩

/-- `F::from_canonical_u8` for the Goldilocks field: the canonical
embedding of a byte value into the field. -/
def from_canonical_u8 (b : Fin 256) : F := (b.val : F)

/-- `Vec::resize(new_len, value)`: truncate to `new_len` if shorter,
otherwise extend with copies of `value`. -/
def listResize (l : List α) (new_len : Nat) (value : α) : List α :=
  l.take new_len ++ List.replicate (new_len - l.length) value

/-- Fuel-driven loop behind `next_power_of_two`: starting from
accumulator `acc` (a power of two), double until it reaches `n`. -/
def npotGo (n : Nat) : Nat → Nat → Nat
  | 0, acc => acc
  | fuel + 1, acc => if n ≤ acc then acc else npotGo n fuel (2 * acc)

/-- `usize::next_power_of_two`: the smallest power of two greater than
or equal to `n` (so `0` and `1` both give `1`).  `n` units of fuel
suffice because `n ≤ 2 ^ n`. -/
def next_power_of_two (n : Nat) : Nat := npotGo n n 1

/-- `NUMBER_OF_COLS` from `stark_program_instructions.rs` line 43. -/
def NUMBER_OF_COLS : Nat := 3

/-- `PUBLIC_INPUTS` from `stark_program_instructions.rs` line 44. -/
def PUBLIC_INPUTS : Nat := 0

/-- The row emitted for one `(pc, inst)` entry of `prog.code`
(`stark_program_instructions.rs` lines 66-75): program counter,
instruction opcode, and the constant-one filter.  The three components
of the triple are columns 0, 1 and 2 of the row `[F; 3]`. -/
def instructionRow (e : Fin 256 × Instruction) : F × F × F :=
  (from_canonical_u8 e.1, (e.2.get_opcode : F), (1 : F))

/-- The row-major trace built by
`ProgramInstructionsStark::generate_trace`
(`stark_program_instructions.rs` lines 59-82): one row per entry of
`prog.code` in the map's native iteration order, then `resize` up to
the next power of two with `[F::ZERO; 3]` rows. -/
def generate_trace_rows (prog : Program) : List (F × F × F) :=
  let trace := prog.code.map instructionRow
  let pow2_len := next_power_of_two trace.length
  listResize trace pow2_len ((0 : F), (0 : F), (0 : F))

/-- `starky::util::trace_rows_to_poly_values`: transpose the row-major
trace into one column (polynomial-values vector) per field position. -/
def trace_rows_to_poly_values (rows : List (F × F × F)) : List (List F) :=
  [rows.map fun r => r.1, rows.map fun r => r.2.1, rows.map fun r => r.2.2]

/-- `ProgramInstructionsStark::generate_trace`
(`stark_program_instructions.rs` lines 59-86), column-major output. -/
def generate_trace (prog : Program) : List (List F) :=
  trace_rows_to_poly_values (generate_trace_rows prog)

/-- `ProgramInstructionsStark::eval_packed_generic`
(`stark_program_instructions.rs` lines 107-120), specialised to the
base field: given the local values of one row, yield the single
constraint `filter_column * (P::ONES - filter_column)` where
`filter_column = local_values[2]`.  The returned list holds every
expression passed to `yield_constr`, in order. -/
def eval_packed_generic (local_values : F × F × F) : List F :=
  let filter_column := local_values.2.2
  [filter_column * (1 - filter_column)]

/-- Horner evaluation of a polynomial given by its ascending
coefficient list. -/
def polyEvalList (coeffs : List F) (x : F) : F :=
  coeffs.foldr (fun c acc => c + x * acc) 0

/-- The degree of a polynomial given by its ascending coefficient
list: the index of the last nonzero coefficient (0 for the zero
polynomial, matching `Polynomial.natDegree`). -/
def listNatDegree (coeffs : List F) : Nat :=
  ((coeffs.reverse.dropWhile fun c => decide (c = 0))).length - 1

/-- The single constraint of `eval_packed_generic` as a univariate
polynomial in the filter column: `x * (1 - x) = 0 + 1 * x + (-1) * x^2`,
in ascending coefficient order. -/
def filterConstraintCoeffs : List F := [0, 1, -1]

/-- `ProgramInstructionsStark::eval_ext_circuit`
(`stark_program_instructions.rs` lines 122-129): the body is
`unimplemented!()`, a fatal panic for every input; modelled as a
fallible function that never produces a constraint list.  The builder
and recursive constraint consumer are external opaque state, modelled
as `Unit`. -/
def eval_ext_circuit (_builder : Unit) (_vars : F × F × F)
    (_yield_constr : Unit) : Option (List F) :=
  none

/-- `ProgramInstructionsStark::constraint_degree`
(`stark_program_instructions.rs` lines 131-133). -/
def constraint_degree : Nat := 3

/-- Whether two instructions are built from the same variant
(constructor) of `Instruction`, ignoring operands. -/
def sameVariant : Instruction → Instruction → Bool
  | .Add _ _, .Add _ _ => true
  | .Sub _ _, .Sub _ _ => true
  | .Mul _ _, .Mul _ _ => true
  | .Div _ _, .Div _ _ => true
  | .Shl _ _, .Shl _ _ => true
  | .Shr _ _, .Shr _ _ => true
  | .Jz _ _, .Jz _ _ => true
  | .Jnz _ _, .Jnz _ _ => true
  | .Lb _ _, .Lb _ _ => true
  | .Sb _ _, .Sb _ _ => true
  | .Halt, .Halt => true
  | _, _ => false

/-- One representative instruction per variant, in opcode order. -/
def variantReps : List Instruction :=
  [.Add .R0 .R0, .Sub .R0 .R0, .Mul .R0 .R0, .Div .R0 .R0,
   .Shl .R0 .R0, .Shr .R0 .R0, .Jz .R0 ⟨0⟩, .Jnz .R0 ⟨0⟩,
   .Lb .R0 ⟨0⟩, .Sb .R0 ⟨0⟩, .Halt]

/-- A program whose code map holds `{1 ↦ Halt, 3 ↦ Halt, 5 ↦ Halt}`
and iterates in the order `5, 1, 3` — a legitimate native iteration
order for a `HashMap` with those keys. -/
def progIter513 : Program :=
  ⟨0, [(5, .Halt), (1, .Halt), (3, .Halt)], []⟩

/-- The same code map `{1 ↦ Halt, 3 ↦ Halt, 5 ↦ Halt}` as
`progIter513`, iterating in ascending key order `1, 3, 5`. -/
def progIter135 : Program :=
  ⟨0, [(1, .Halt), (3, .Halt), (5, .Halt)], []⟩

/-- A program whose code map holds `{1 ↦ Add(R0, R1), 2 ↦ Halt}` and
iterates in the order `1, 2`. -/
def progIter12 : Program :=
  ⟨0, [(1, .Add .R0 .R1), (2, .Halt)], []⟩

/-- The same code map `{1 ↦ Add(R0, R1), 2 ↦ Halt}` as `progIter12`,
iterating in the order `2, 1`. -/
def progIter21 : Program :=
  ⟨0, [(2, .Halt), (1, .Add .R0 .R1)], []⟩

end PixieZKVM

namespace PixieZKVM

theorem one_le_npotGo (n : Nat) :
    ∀ fuel acc, 1 ≤ acc → 1 ≤ npotGo n fuel acc := by
  intro fuel
  induction fuel with
  | zero => intro acc h; simpa [npotGo] using h
  | succ k ih =>
    intro acc h
    simp only [npotGo]
    split
    · exact h
    · exact ih _ (by omega)

theorem le_npotGo (n : Nat) :
    ∀ fuel acc, n ≤ acc * 2 ^ fuel → n ≤ npotGo n fuel acc := by
  intro fuel
  induction fuel with
  | zero => intro acc h; simpa [npotGo] using h
  | succ k ih =>
    intro acc h
    simp only [npotGo]
    split
    · assumption
    · refine ih _ ?_
      have hpow : 2 * acc * 2 ^ k = acc * 2 ^ (k + 1) := by
        rw [pow_succ]; ring
      omega

theorem one_le_next_power_of_two (n : Nat) : 1 ≤ next_power_of_two n :=
  one_le_npotGo n n 1 le_rfl

theorem npotGo_pow (n : Nat) :
    ∀ fuel j, ∃ k, npotGo n fuel (2 ^ j) = 2 ^ k := by
  intro fuel
  induction fuel with
  | zero => intro j; exact ⟨j, rfl⟩
  | succ m ih =>
    intro j
    simp only [npotGo]
    split
    · exact ⟨j, rfl⟩
    · have h2 : 2 * 2 ^ j = 2 ^ (j + 1) := by rw [pow_succ]; ring
      rw [h2]
      exact ih (j + 1)

/-- Sanity: `next_power_of_two` always returns a power of two. -/
theorem next_power_of_two_pow (n : Nat) :
    ∃ k, next_power_of_two n = 2 ^ k := by
  have := npotGo_pow n n 0
  simpa [next_power_of_two] using this

theorem npotGo_min (n bound : Nat) (hn : n ≤ 2 ^ bound) :
    ∀ fuel j, 2 ^ j ≤ 2 ^ bound → npotGo n fuel (2 ^ j) ≤ 2 ^ bound := by
  intro fuel
  induction fuel with
  | zero => intro j hj; simpa [npotGo] using hj
  | succ m ih =>
    intro j hj
    simp only [npotGo]
    split
    · exact hj
    · have hlt : 2 ^ j < 2 ^ bound := by omega
      have hjb : j < bound := by
        rcases Nat.lt_or_ge j bound with h | h
        · exact h
        · exfalso
          have : 2 ^ bound ≤ 2 ^ j := Nat.pow_le_pow_right (by omega) h
          omega
      have h2 : 2 * 2 ^ j = 2 ^ (j + 1) := by rw [pow_succ]; ring
      rw [h2]
      exact ih (j + 1) (Nat.pow_le_pow_right (by omega) (by omega))

/-- Sanity: `next_power_of_two n` is the smallest power of two that is
at least `n` (with `le_next_power_of_two` and `next_power_of_two_pow`). -/
theorem next_power_of_two_min (n bound : Nat) (hn : n ≤ 2 ^ bound) :
    next_power_of_two n ≤ 2 ^ bound :=
  npotGo_min n bound hn n 0 (Nat.one_le_two_pow)

/-- Witness for `next_power_of_two_min`: `5 ≤ 2 ^ 3` and the next
power of two after 5 is at most `2 ^ 3`. -/
theorem next_power_of_two_min_witness :
    5 ≤ 2 ^ 3 ∧ next_power_of_two 5 ≤ 2 ^ 3 :=
  ⟨by decide, next_power_of_two_min 5 3 (by decide)⟩

theorem le_next_power_of_two (n : Nat) : n ≤ next_power_of_two n := by
  refine le_npotGo n n 1 ?_
  have := Nat.lt_two_pow n
  omega

/-- Structural form of the built rows: the instruction rows in the
code map's iteration order, followed by all-zero padding rows up to
the next power of two. -/
theorem generate_trace_rows_eq (p : Program) :
    generate_trace_rows p
      = p.code.map instructionRow
        ++ List.replicate
            (next_power_of_two p.code.length - p.code.length)
            ((0 : F), (0 : F), (0 : F)) := by
  have hlen : (p.code.map instructionRow).length = p.code.length :=
    List.length_map _ _
  simp only [generate_trace_rows, listResize, hlen]
  rw [List.take_of_length_le (by rw [hlen]; exact le_next_power_of_two _)]

theorem generate_trace_rows_length (p : Program) :
    (generate_trace_rows p).length = next_power_of_two p.code.length := by
  rw [generate_trace_rows_eq]
  have := le_next_power_of_two p.code.length
  simp [List.length_append, List.length_map, List.length_replicate]
  omega

theorem filter_one_of_map (l : List (Fin 256 × Instruction)) :
    ((l.map instructionRow).filter fun r => decide (r.2.2 = 1))
      = l.map instructionRow := by
  refine List.filter_eq_self.mpr ?_
  intro r hr
  obtain ⟨e, _, rfl⟩ := List.mem_map.mp hr
  simp [instructionRow]

theorem filter_one_of_replicate (k : Nat) :
    ((List.replicate k ((0 : F), (0 : F), (0 : F))).filter
        fun r => decide (r.2.2 = 1)) = [] := by
  have h0 : (decide ((0 : F) = 1)) = false := by decide
  induction k with
  | zero => rfl
  | succ m ih => simp [List.replicate_succ, List.filter_cons, h0, ih]

theorem filter_not_one_of_map (l : List (Fin 256 × Instruction)) :
    ((l.map instructionRow).filter fun r => decide (¬ r.2.2 = 1)) = [] := by
  refine List.filter_eq_nil_iff.mpr ?_
  intro r hr
  obtain ⟨e, _, rfl⟩ := List.mem_map.mp hr
  simp [instructionRow]

theorem filter_not_one_of_replicate (k : Nat) :
    ((List.replicate k ((0 : F), (0 : F), (0 : F))).filter
        fun r => decide (¬ r.2.2 = 1))
      = List.replicate k ((0 : F), (0 : F), (0 : F)) := by
  refine List.filter_eq_self.mpr ?_
  intro r hr
  rw [List.eq_of_mem_replicate hr]
  decide

/-- Claim C3: the filter-1 rows of the built trace are exactly, in
order, one row per entry `(pc, inst)` of the code map, holding the
field embedding of `pc`, the field embedding of the opcode, and
filter 1; every remaining row is the padding row `(0, 0, 0)`. -/
theorem trace_rows_spec (p : Program) :
    ((generate_trace_rows p).filter fun r => decide (r.2.2 = 1))
        = p.code.map
            (fun e => (from_canonical_u8 e.1, (e.2.get_opcode : F), (1 : F))) ∧
    ((generate_trace_rows p).filter fun r => decide (¬ r.2.2 = 1))
        = List.replicate (next_power_of_two p.code.length - p.code.length)
            ((0 : F), (0 : F), (0 : F)) := by
  constructor
  · rw [generate_trace_rows_eq, List.filter_append, filter_one_of_map,
      filter_one_of_replicate, List.append_nil]
    rfl
  · rw [generate_trace_rows_eq, List.filter_append, filter_not_one_of_map,
      filter_not_one_of_replicate, List.nil_append]

/-- Claim C4: the built trace has 3 columns, each of length
`max 1 (next_power_of_two |code|)`; the default (empty) program
yields a single row `(0, 0, 0)`, i.e. columns `[[0], [0], [0]]`. -/
theorem generate_trace_shape (p : Program) :
    (generate_trace p).map List.length
      = List.replicate 3 (max 1 (next_power_of_two p.code.length)) ∧
    generate_trace Program.default = [[(0 : F)], [0], [0]] := by
  constructor
  · have h1 := one_le_next_power_of_two p.code.length
    simp [generate_trace, trace_rows_to_poly_values, List.length_map,
      generate_trace_rows_length, List.replicate]
    omega
  · decide

/-- Claim C9: every row of a built trace satisfies the declared
booleanity constraint exactly: the filter entry is 0 or 1, and
`filter * (1 - filter) = 0` in the field. -/
theorem trace_filter_boolean (p : Program) :
    ∀ r ∈ generate_trace_rows p,
      (r.2.2 = 0 ∨ r.2.2 = 1) ∧ r.2.2 * (1 - r.2.2) = 0 := by
  intro r hr
  rw [generate_trace_rows_eq] at hr
  rcases List.mem_append.mp hr with h | h
  · obtain ⟨e, _, rfl⟩ := List.mem_map.mp h
    exact ⟨Or.inr rfl, by simp [instructionRow]⟩
  · rw [List.eq_of_mem_replicate h]
    exact ⟨Or.inl rfl, by simp⟩

/-- Witness for `trace_filter_boolean`: the single row of the default
program's trace is a member and satisfies the constraint. -/
theorem trace_filter_boolean_witness :
    (((0 : F), (0 : F), (0 : F)) ∈ generate_trace_rows Program.default) ∧
    (((0 : F) = 0 ∨ (0 : F) = 1) ∧ (0 : F) * (1 - (0 : F)) = 0) :=
  have hm : ((0 : F), (0 : F), (0 : F)) ∈ generate_trace_rows Program.default :=
    by decide
  ⟨hm, trace_filter_boolean Program.default _ hm⟩

/-- Claim C1 is refuted by the code: the builder emits rows in the code
map's native iteration order, not in ascending program-counter order.
For the code map `{1 ↦ Halt, 3 ↦ Halt, 5 ↦ Halt}` iterated as
`5, 1, 3`, the program-counter column comes out `5, 1, 3, 0` rather
than the ascending `1, 3, 5, 0` required by the specification. -/
theorem trace_rows_follow_iteration_order :
    progIter513.code.Perm progIter135.code ∧
    (generate_trace_rows progIter513).map (fun r => r.1)
      = [(5 : F), 1, 3, 0] ∧
    (generate_trace_rows progIter135).map (fun r => r.1)
      = [(1 : F), 3, 5, 0] ∧
    generate_trace_rows progIter513 ≠ generate_trace_rows progIter135 :=
  ⟨by decide, by decide, by decide, by decide⟩

/-- Claim C2 is refuted by the code: two programs holding the same
code map `{1 ↦ Add(R0, R1), 2 ↦ Halt}` but with different native
iteration orders produce different trace tables, so the builder is not
deterministic in the map's contents alone. -/
theorem trace_differs_for_equal_code_maps :
    progIter12.code.Perm progIter21.code ∧
    generate_trace progIter12 = [[(1 : F), 2], [(0 : F), 10], [(1 : F), 1]] ∧
    generate_trace progIter21 = [[(2 : F), 1], [(10 : F), 0], [(1 : F), 1]] ∧
    generate_trace progIter12 ≠ generate_trace progIter21 :=
  ⟨by decide, by decide, by decide, by decide⟩

/-- Claim C7: `get_opcode` is a pure total function from the 11
instruction variants onto the dense range 0-10, injective on variants
(instructions get equal opcodes exactly when they are the same
variant), with `Add` mapped to 0 and the default variant `Halt`
mapped to 10; being a Lean function it has no failure case. -/
theorem get_opcode_spec :
    (∀ i : Instruction, i.get_opcode ≤ 10) ∧
    (∀ k : Fin 11, ∃ i : Instruction, i.get_opcode = k.val) ∧
    (∀ i j : Instruction,
        i.get_opcode = j.get_opcode ↔ sameVariant i j = true) ∧
    (∀ a b : Register, (Instruction.Add a b).get_opcode = 0) ∧
    Instruction.Halt.get_opcode = 10 ∧
    (default : Instruction) = Instruction.Halt := by
  refine ⟨?_, ?_, ?_, fun a b => rfl, rfl, rfl⟩
  · intro i
    cases i <;> simp [Instruction.get_opcode]
  · intro k
    refine ⟨variantReps.getD k.val .Halt, ?_⟩
    fin_cases k <;> rfl
  · intro i j
    cases i <;> cases j <;> simp [Instruction.get_opcode, sameVariant]

/-- Claim C8: for every instruction, `one_hot_encode` returns a vector
of length 11 with exactly one entry set, and the index of the single
set entry equals the instruction's opcode. -/
theorem one_hot_encode_spec (i : Instruction) :
    i.one_hot_encode.length = 11 ∧
    i.one_hot_encode.count 1 = 1 ∧
    (∀ j : Fin 11, i.one_hot_encode.getD j.val 0
        = if j.val = i.get_opcode then 1 else 0) := by
  cases i <;> exact ⟨rfl, rfl, fun j => by fin_cases j <;> rfl⟩

/-- Claim C10: for every instruction, the field-valued one-hot
encoding agrees pointwise with the canonical field embedding of the
byte-valued one: `F::ONE` where the byte vector holds 1, `F::ZERO`
where it holds 0. -/
theorem one_hot_encode_and_apply_spec (i : Instruction) :
    i.one_hot_encode_and_apply.length = 11 ∧
    (∀ j : Fin 11, i.one_hot_encode_and_apply.getD j.val 0
        = ((i.one_hot_encode.getD j.val 0 : Nat) : F)) := by
  cases i <;> exact ⟨rfl, fun j => by fin_cases j <;> simp [Instruction.one_hot_encode,
    Instruction.one_hot_encode_and_apply, Instruction.get_opcode]⟩

/-- Claim C6: the circuit-based ("recursive") constraint-evaluation
path is `unimplemented!()`: for every input it fails fatally (returns
no result) and never emits any constraint list, partial or empty. -/
theorem eval_ext_circuit_unimplemented
    (b : Unit) (vars : F × F × F) (yc : Unit) :
    eval_ext_circuit b vars yc = none ∧
    ∀ constraints : List F, eval_ext_circuit b vars yc ≠ some constraints :=
  ⟨rfl, fun _ h => Option.noConfusion h⟩

/-- Claim C5: the constraint table declares 3 columns and 0 public
inputs; its per-row evaluation emits exactly one constraint, the
polynomial `x * (1 - x)` applied to the row's third column (the
filter), whose actual degree is 2; the declared constraint degree is
3, one more than the actual degree. -/
theorem constraint_table_spec :
    NUMBER_OF_COLS = 3 ∧ PUBLIC_INPUTS = 0 ∧
    (∀ local_values : F × F × F,
        eval_packed_generic local_values
          = [polyEvalList filterConstraintCoeffs local_values.2.2]) ∧
    listNatDegree filterConstraintCoeffs = 2 ∧
    (Polynomial.X * (1 - Polynomial.X) : Polynomial F).natDegree = 2 ∧
    (∀ x : F,
        Polynomial.eval x (Polynomial.X * (1 - Polynomial.X) : Polynomial F)
          = x * (1 - x)) ∧
    constraint_degree = 3 ∧
    constraint_degree = listNatDegree filterConstraintCoeffs + 1 := by
  refine ⟨rfl, rfl, ?_, by decide, ?_, ?_, rfl, by decide⟩
  · intro lv
    simp only [eval_packed_generic, polyEvalList, filterConstraintCoeffs,
      List.foldr, List.cons.injEq, and_true]
    ring
  · have h : (Polynomial.X * (1 - Polynomial.X) : Polynomial F)
        = Polynomial.X - Polynomial.X ^ 2 := by ring
    rw [h]
    compute_degree!
  · intro x
    simp

end PixieZKVM
